import Mathlib

/-!
Shallow embedding of the release-scholar validation engine (Rust) and proofs
of the specification claims about it.

Source files embedded: src/report.rs, src/validation/git.rs,
src/validation/citation.rs, src/validation/security.rs, src/validation/size.rs,
src/commands/check.rs.

Conventions of the embedding:
* Machine integers (u64 sizes, commit counters) are Nat; no overflow is
  reachable at the thresholds involved.
* Fallible external reads (file contents, tag resolution, status paths) are
  Option values, mirroring the match-on-Result structure of the source.
* Regular-expression matching from the regex crate is embedded concretely for
  the two anchored regexes whose shape the claims are about (the ORCID pattern
  and the semver tag pattern); for the SECRET_PATTERNS table, whose internal
  regex syntax no claim depends on, matching is a Boolean oracle parameter
  taking the source pattern string and the line.
* Float formatting of sizes in messages is abstracted by fmtMB (the claims do
  not depend on the digits of size messages).
-/

namespace RS

/-- ASCII apostrophe, used in source format strings. -/
def sq : String := String.singleton (Char.ofNat 39)

/-! ## Result model (src/report.rs) -/

inductive Status where
  | Pass
  | Fail
  | Warn
deriving DecidableEq, Repr

structure CheckResult where
  category : String
  message : String
  status : Status
deriving DecidableEq, Repr

structure Report where
  results : List CheckResult
deriving DecidableEq, Repr

/-- `matches!(r.status, Status::Fail)` from report.rs line 47. -/
def isFail (c : CheckResult) : Bool :=
  match c.status with
  | Status.Fail => true
  | _ => false

/-- Report::has_failures (report.rs lines 46-48). -/
def Report.has_failures (r : Report) : Bool :=
  r.results.any isFail

/-- report.pass(category, message) appends this result. -/
def passR (cat msg : String) : CheckResult := ⟨cat, msg, Status.Pass⟩

/-- report.fail(category, message) appends this result. -/
def failR (cat msg : String) : CheckResult := ⟨cat, msg, Status.Fail⟩

/-- report.warn(category, message) appends this result. -/
def warnR (cat msg : String) : CheckResult := ⟨cat, msg, Status.Warn⟩

/-! ## Version-control inspector data (src/validation/git.rs lines 6-9) -/

structure GitInfo where
  version : String
  tag : String
deriving DecidableEq, Repr

/-- commands/check.rs line 19: `git_info.as_ref().map(|g| g.version.as_str())`. -/
def expectedVersionOf (g : Option GitInfo) : Option String :=
  g.map GitInfo.version

/-! ## Citation validator: version consistency (src/validation/citation.rs lines 66-79)

The document version field is the value of `doc.get("version").and_then(as_str)`,
an Option String.  The function returns the list of results this block appends. -/

def versionCheckResults (expectedVersion : Option String) (docVersion : Option String) :
    List CheckResult :=
  match expectedVersion with
  | none => []
  | some expected =>
    match docVersion with
    | some v =>
      if v = expected then
        [passR "Citation" ("version matches git tag (" ++ v ++ ")")]
      else
        [failR "Citation" ("version " ++ sq ++ v ++ sq ++ " does not match git tag " ++
          sq ++ expected ++ sq)]
    | none => [failR "Citation" "version missing"]

/-! ## Citation validator: ORCID pattern (src/validation/citation.rs lines 47-58)

The regex is anchored:  https prefix, then 4-4-4 digit groups, then 3 digits and
a final digit-or-X.  It is embedded as a linear scanner over the character list. -/

/-- Consume a literal character sequence, returning the rest of the input. -/
def matchLit : List Char → List Char → Option (List Char)
  | [], s => some s
  | _ :: _, [] => none
  | c :: cs, d :: ds => if d = c then matchLit cs ds else none

/-- Consume exactly n ASCII digits, returning the rest of the input. -/
def matchDigits : Nat → List Char → Option (List Char)
  | 0, s => some s
  | _ + 1, [] => none
  | n + 1, c :: cs => if c.isDigit then matchDigits n cs else none

def ORCID_PREFIX : String := "https://orcid.org/"

/-- Consume the final character class of the ORCID regex: a digit or X. -/
def matchOrcidFinal : List Char → Option (List Char)
  | [] => none
  | c :: cs => if c.isDigit = true ∨ c = 'X' then some cs else none

def orcidScan (s : List Char) : Option (List Char) :=
  (matchLit ORCID_PREFIX.data s).bind fun r1 =>
  (matchDigits 4 r1).bind fun r2 =>
  (matchLit ['-'] r2).bind fun r3 =>
  (matchDigits 4 r3).bind fun r4 =>
  (matchLit ['-'] r4).bind fun r5 =>
  (matchDigits 4 r5).bind fun r6 =>
  (matchLit ['-'] r6).bind fun r7 =>
  (matchDigits 3 r7).bind fun r8 =>
  matchOrcidFinal r8

/-- `orcid_re.is_match(orcid)`: the anchored regex matches iff the scan
consumes the whole string. -/
def orcidMatch (s : String) : Bool :=
  decide (orcidScan s.data = some [])

/-- The per-author ORCID branch of citation.rs lines 52-58, as the single
result it appends for author index i (0-based). -/
def authorOrcidResult (i : Nat) (orcid : String) : CheckResult :=
  if orcidMatch orcid then
    passR "Citation" ("Author " ++ toString (i + 1) ++ " ORCID valid")
  else
    failR "Citation" ("Author " ++ toString (i + 1) ++ " ORCID invalid: " ++ orcid)

/-- The shape the claim describes: the https prefix, then four hyphen-separated
four-character groups, the first fifteen characters of the groups being digits
and the last being a digit or X. -/
def OrcidShape (s : String) : Prop :=
  ∃ (g1 g2 g3 g4 : List Char) (c : Char),
    s.data = ORCID_PREFIX.data ++ g1 ++ ['-'] ++ g2 ++ ['-'] ++
      g3 ++ ['-'] ++ (g4 ++ [c]) ∧
    g1.length = 4 ∧ g2.length = 4 ∧ g3.length = 4 ∧ g4.length = 3 ∧
    (∀ d ∈ g1 ++ g2 ++ g3 ++ g4, d.isDigit = true) ∧
    (c.isDigit = true ∨ c = 'X')

/-! ## Version-control inspector: cleanliness (src/validation/git.rs lines 20-47) -/

/-- The git2 status bitflags value of one entry; GIT_STATUS_IGNORED is bit 14. -/
def STATUS_IGNORED : Nat := 2 ^ 14

/-- One entry of repo.statuses(): e.path() can fail to decode (None), and
e.status() is the raw bitflags value. -/
structure StatusEntry where
  path : Option String
  status : Nat
deriving DecidableEq, Repr

/-- git.rs lines 24-30: the dirty list, filtering out entries whose status
equals exactly git2 Status IGNORED, mapping to path with a question-mark
fallback. -/
def dirtyPaths (entries : List StatusEntry) : List String :=
  (entries.filter fun e => e.status != STATUS_IGNORED).map fun e => e.path.getD "?"

/-- git.rs lines 31-42: the single cleanliness result appended (the local
dirty variable is inlined as dirtyPaths entries). -/
def cleanlinessResult (entries : List StatusEntry) : CheckResult :=
  if (dirtyPaths entries).isEmpty then
    passR "Git" "Working directory is clean"
  else
    warnR "Git" ("Working directory has " ++ toString (dirtyPaths entries).length ++
      " uncommitted change(s): " ++ String.intercalate ", " ((dirtyPaths entries).take 5))

/-! ## Version-control inspector: tag resolution (src/validation/git.rs lines 49-97)

The semver regex is anchored v then three dot-separated one-or-more digit
groups, with the part after v as its capture group.  Commit ids are abstract;
resolve models revparse_single followed by peeling (None on revparse error). -/

/-- Commit object ids, abstracted. -/
abbrev CommitId := Nat

/-- Consume one or more ASCII digits greedily, returning the rest. -/
def matchNum : List Char → Option (List Char)
  | [] => none
  | c :: cs => if c.isDigit then some (cs.dropWhile Char.isDigit) else none

/-- The body of the semver regex after the leading v. -/
def semverBodyScan (s : List Char) : Option (List Char) :=
  (matchNum s).bind fun r1 =>
  (matchLit ['.'] r1).bind fun r2 =>
  (matchNum r2).bind fun r3 =>
  (matchLit ['.'] r3).bind fun r4 =>
  matchNum r4

/-- `semver_re.captures(name)`, returning the capture group: the tag name
without the leading v. -/
def semverCapture (name : String) : Option String :=
  match name.data with
  | c :: rest =>
    if c = 'v' then
      match semverBodyScan rest with
      | some [] => some (String.mk rest)
      | _ => none
    else none
  | [] => none

/-- The dotted-digit-groups shape of the semver capture group. -/
def SemverShape (v : String) : Prop :=
  ∃ d1 d2 d3 : List Char,
    v.data = d1 ++ ['.'] ++ d2 ++ ['.'] ++ d3 ∧
    d1 ≠ [] ∧ d2 ≠ [] ∧ d3 ≠ [] ∧
    (∀ c ∈ d1 ++ d2 ++ d3, c.isDigit = true)

/-- git.rs lines 68-85: the first tag in enumeration order that is a semver
tag and resolves (peeled) to the head commit.  A None tag name (non-UTF8) or
a failed resolution is skipped. -/
def findSemverTag (tags : List (Option String)) (resolve : String → Option CommitId)
    (head : CommitId) : Option (String × String) :=
  match tags with
  | [] => none
  | none :: rest => findSemverTag rest resolve head
  | some name :: rest =>
    match semverCapture name with
    | none => findSemverTag rest resolve head
    | some ver =>
      match resolve name with
      | none => findSemverTag rest resolve head
      | some oid =>
        if oid = head then some (name, ver) else findSemverTag rest resolve head

/-- git.rs lines 87-96: the single tag-resolution result appended and the
returned optional GitInfo. -/
def tagResolution (tags : List (Option String)) (resolve : String → Option CommitId)
    (head : CommitId) : List CheckResult × Option GitInfo :=
  match findSemverTag tags resolve head with
  | some (tag, version) =>
    ([passR "Git" ("HEAD is tagged: " ++ tag ++ " (version " ++ version ++ ")")],
      some ⟨version, tag⟩)
  | none => ([failR "Git" "HEAD has no semver tag (expected vX.Y.Z)"], none)

/-! ## Security auditor (src/validation/security.rs)

The SECRET_PATTERNS table carries the regex source strings of the code; the
regex crate match operation is a Boolean oracle parameter m applied to the
pattern source and the text (no claim depends on the internal syntax of these
regexes, only on the confidence filtering and the control flow around them). -/

/-- One row of SECRET_PATTERNS (security.rs lines 7-34): pattern source,
label, and the severity flag (true = FAIL, high confidence). -/
structure SecretRule where
  pattern : String
  label : String
  is_fail : Bool
deriving DecidableEq, Repr

def SECRET_PATTERNS : List SecretRule := [
  ⟨"-----BEGIN\\s+(RSA |DSA |EC |OPENSSH )?PRIVATE KEY-----", "Private key", true⟩,
  ⟨"(?i)(api[_-]?key|api[_-]?secret|access[_-]?token)\\s*[:=]\\s*[\x27\"]?\\w\x7b16,\x7d",
    "API key/token", true⟩,
  ⟨"(?i)(password|passwd|pwd)\\s*[:=]\\s*[\x27\"]?.\x7b8,\x7d",
    "Password assignment", false⟩,
  ⟨"AKIA[0-9A-Z]\x7b16\x7d", "AWS Access Key", true⟩,
  ⟨"ghp_[A-Za-z0-9_]\x7b36\x7d", "GitHub Personal Access Token", true⟩,
  ⟨"glpat-[A-Za-z0-9_\\-]\x7b20\x7d", "GitLab Personal Access Token", true⟩]

/-- One index entry together with the result of reading its working-tree
copy: none models fs read_to_string failing (missing file or not UTF-8). -/
structure TrackedEntry where
  path : String
  content : Option String
deriving DecidableEq, Repr

/-- security.rs lines 86-103: the results one index entry contributes to the
tracked-content secret scan. -/
def entrySecretResults (m : String → String → Bool) (e : TrackedEntry) :
    List CheckResult :=
  match e.content with
  | none => []
  | some content =>
    SECRET_PATTERNS.filterMap fun rule =>
      if m rule.pattern content then
        some (if rule.is_fail then
          failR "Security" ("Possible " ++ rule.label ++ " found in tracked file: " ++ e.path)
        else
          warnR "Security" ("Possible " ++ rule.label ++ " found in tracked file: " ++ e.path))
      else none

/-- security.rs lines 69-108: scan_tracked_files_for_secrets as the list of
results it appends (the found_secrets flag is set iff some entry matched). -/
def scanTrackedFiles (m : String → String → Bool) (entries : List TrackedEntry) :
    List CheckResult :=
  if (entries.flatMap (entrySecretResults m)).isEmpty then
    [passR "Security" "No secrets detected in tracked files"]
  else
    entries.flatMap (entrySecretResults m)

/-! ## History scanner (src/validation/security.rs lines 139-220) -/

/-- One diff line: the git2 origin character and the line content. -/
structure DiffLine where
  origin : Char
  content : String
deriving DecidableEq, Repr

/-- One item yielded by the revwalk.  none: an errored oid, skipped before
the cap check and not counted.  some none: a commit whose lookup, tree or
diff computation failed, counted but not inspected.  some (some lines): a
commit whose diff lines against its first parent (or the empty tree) are
inspected. -/
abbrev WalkItem := Option (Option (List DiffLine))

def MAX_COMMITS : Nat := 100

/-- security.rs lines 141-145: the history scan compiles only the rules with
the FAIL (high-confidence) flag. -/
def HIGH_PATTERNS : List SecretRule :=
  SECRET_PATTERNS.filter fun r => r.is_fail

/-- security.rs lines 188-199: a diff line flags the scan when its origin is
added or context and some high-confidence rule matches its content. -/
def lineHit (m : String → String → Bool) (l : DiffLine) : Bool :=
  (l.origin == '+' || l.origin == ' ') &&
    HIGH_PATTERNS.any fun r => m r.pattern l.content

/-- security.rs lines 153-204: the revwalk loop, returning the final
commits_checked counter and found_in_history flag. -/
def scanLoop (m : String → String → Bool) :
    List WalkItem → Nat → Bool → Nat × Bool
  | [], checked, flag => (checked, flag)
  | none :: rest, checked, flag => scanLoop m rest checked flag
  | some c :: rest, checked, flag =>
    if checked ≥ MAX_COMMITS then (checked, flag)
    else
      match c with
      | none => scanLoop m rest (checked + 1) flag
      | some lines => scanLoop m rest (checked + 1) (flag || lines.any (lineHit m))

/-- security.rs lines 206-219: the single result appended after traversal. -/
def scanGitHistory (m : String → String → Bool) (walk : List WalkItem) :
    List CheckResult :=
  if (scanLoop m walk 0 false).2 then
    [warnR "Security" "Potential secrets found in git history (review recommended)"]
  else
    [passR "Security" ("No secrets found in git history (" ++
      toString (scanLoop m walk 0 false).1 ++ " commits scanned)")]

/-- The number of valid (non-errored) oids yielded by the walk. -/
def validCount (walk : List WalkItem) : Nat :=
  walk.countP fun i => i.isSome

/-- Specification mirror of the loop: the commits_checked counter. -/
def countLoop : List WalkItem → Nat → Nat
  | [], k => k
  | none :: rest, k => countLoop rest k
  | some c :: rest, k =>
    if k ≥ MAX_COMMITS then k
    else
      match c with
      | none => countLoop rest (k + 1)
      | some _ => countLoop rest (k + 1)

/-- Specification mirror of the loop: the diffs actually inspected. -/
def inspectLoop : List WalkItem → Nat → List (List DiffLine)
  | [], _ => []
  | none :: rest, k => inspectLoop rest k
  | some c :: rest, k =>
    if k ≥ MAX_COMMITS then []
    else
      match c with
      | none => inspectLoop rest (k + 1)
      | some lines => lines :: inspectLoop rest (k + 1)

def inspectedDiffs (walk : List WalkItem) : List (List DiffLine) :=
  inspectLoop walk 0

/-! ## Gitignore audit (src/validation/security.rs lines 50 and 222-284) -/

def RECOMMENDED_GITIGNORE_PATTERNS : List String :=
  [".env", ".DS_Store", "*.pem", "*.key", "id_rsa"]

/-- str trim on the character list (the whitespace set is ASCII here). -/
def trimChars (l : List Char) : List Char :=
  ((l.dropWhile Char.isWhitespace).reverse.dropWhile Char.isWhitespace).reverse

/-- Split a character list at newline characters. -/
def splitNewlines : List Char → List (List Char)
  | [] => [[]]
  | c :: cs =>
    if c = '\n' then [] :: splitNewlines cs
    else
      match splitNewlines cs with
      | [] => [[c]]
      | l :: ls => (c :: l) :: ls

/-- Remove one trailing carriage return. -/
def stripCR (l : List Char) : List Char :=
  if l.getLast? = some '\r' then l.dropLast else l

/-- Rust str lines(): split on newline, dropping the trailing empty segment
of a trailing newline and a trailing carriage return on each line. -/
def rustLines (content : String) : List (List Char) :=
  (fun parts =>
    (if parts.getLast? = some [] then parts.dropLast else parts).map stripCR)
  (splitNewlines content.data)

/-- str trim_end_matches with a slash: remove all trailing slashes. -/
def trimEndSlashes (p : String) : String :=
  String.mk (p.data.reverse.dropWhile fun c => c == '/').reverse

/-- security.rs lines 275-284: gitignore_contains.  A pattern is found iff
some non-blank, non-comment line equals it, or equals it with its trailing
slashes removed, after trimming.  (No suffix matching.) -/
def gitignore_contains (content : String) (pattern : String) : Bool :=
  (rustLines content).any fun line =>
    if (trimChars line).isEmpty || (trimChars line).head? == some '#' then false
    else trimChars line == pattern.data ||
      trimChars line == (trimEndSlashes pattern).data

/-- security.rs lines 234-249: the missing recommended security patterns. -/
def missingSecurityPatterns (content : String) : List String :=
  RECOMMENDED_GITIGNORE_PATTERNS.filter fun p => !(gitignore_contains content p)

/-- security.rs lines 242-249: the single security-patterns result of
audit_gitignore, given the ignore file content. -/
def auditGitignoreSecurity (content : String) : CheckResult :=
  if (missingSecurityPatterns content).isEmpty then
    passR "Gitignore" "Covers common sensitive file patterns"
  else
    warnR "Gitignore" ("Missing security patterns: " ++
      String.intercalate ", " (missingSecurityPatterns content))

/-! ## Size auditor (src/validation/size.rs) -/

def LARGE_FILE_THRESHOLD : Nat := 1000000
def VERY_LARGE_FILE_THRESHOLD : Nat := 10000000
def REPO_SIZE_WARN_THRESHOLD : Nat := 50000000
def REPO_SIZE_FAIL_THRESHOLD : Nat := 200000000

def BINARY_EXTENSIONS : List String := [
  ".zip", ".tar", ".gz", ".bz2", ".xz", ".7z", ".rar", ".jar", ".war", ".ear",
  ".exe", ".dll", ".so", ".dylib", ".png", ".jpg", ".jpeg", ".gif", ".bmp",
  ".tiff", ".ico", ".svg", ".mp3", ".mp4", ".avi", ".mov", ".wav", ".flac",
  ".pdf", ".doc", ".docx", ".xls", ".xlsx", ".ppt", ".pptx", ".woff", ".woff2",
  ".ttf", ".eot", ".sqlite", ".db", ".min.js", ".min.css", ".map"]

/-- One index entry with the fs metadata size of its working-tree copy;
none models a failed metadata read (the entry is skipped entirely). -/
structure SizeEntry where
  path : String
  size : Option Nat
deriving DecidableEq, Repr

/-- One-decimal megabyte rendering of a byte count.  The f64 division and
one-decimal float formatting of the source are abstracted to Nat truncation;
no claim depends on the rendered digits. -/
def fmtMB (n : Nat) : String :=
  toString (n / 1000000) ++ "." ++ toString (n % 1000000 / 100000)

/-- size.rs lines 33-56: accumulated total size over readable entries. -/
def sizeTotal (files : List SizeEntry) : Nat :=
  (files.filterMap SizeEntry.size).sum

/-- size.rs lines 33-56: count of readable entries. -/
def sizeFileCount (files : List SizeEntry) : Nat :=
  (files.filterMap SizeEntry.size).length

/-- size.rs lines 45-48: the large_files list. -/
def largeFiles (files : List SizeEntry) : List (String × Nat) :=
  files.filterMap fun e =>
    e.size.bind fun n =>
      if n ≥ LARGE_FILE_THRESHOLD then some (e.path, n) else none

/-- str to_lowercase on the character list (the paths involved are ASCII). -/
def lowerChars (l : List Char) : List Char := l.map Char.toLower

/-- size.rs lines 50-55: the binary_files list. -/
def binaryFiles (files : List SizeEntry) : List (String × Nat) :=
  files.filterMap fun e =>
    e.size.bind fun n =>
      if (BINARY_EXTENSIONS.any fun ext =>
            ext.data.isSuffixOf (lowerChars e.path.data)) = true ∧
          n ≥ LARGE_FILE_THRESHOLD then some (e.path, n) else none

/-- size.rs lines 58-81: the aggregate size result. -/
def aggregateSizeResult (files : List SizeEntry) : CheckResult :=
  if sizeTotal files ≥ REPO_SIZE_FAIL_THRESHOLD then
    failR "Size" ("Tracked files total " ++ fmtMB (sizeTotal files) ++
      " MB — too large for a code repository")
  else if sizeTotal files ≥ REPO_SIZE_WARN_THRESHOLD then
    warnR "Size" ("Tracked files total " ++ fmtMB (sizeTotal files) ++
      " MB — consider reducing")
  else
    passR "Size" ("Tracked files total " ++ fmtMB (sizeTotal files) ++ " MB (" ++
      toString (sizeFileCount files) ++ " files)")

/-- size.rs lines 88-99: one result per large file. -/
def perFileSizeResult (p : String) (n : Nat) : CheckResult :=
  if n ≥ VERY_LARGE_FILE_THRESHOLD then
    failR "Size" (p ++ " is " ++ fmtMB n ++ " MB — consider removing or using Git LFS")
  else
    warnR "Size" (p ++ " is " ++ fmtMB n ++ " MB")

/-- size.rs lines 83-101: the per-file section. -/
def perFileSizeResults (files : List SizeEntry) : List CheckResult :=
  if (largeFiles files).isEmpty then
    [passR "Size" "No large files detected (>1 MB)"]
  else
    (largeFiles files).map fun pr => perFileSizeResult pr.1 pr.2

/-- size.rs lines 103-115: the binary/vendor section. -/
def binarySizeResults (files : List SizeEntry) : List CheckResult :=
  (binaryFiles files).map fun pr =>
    warnR "Size" ("Binary/vendor file tracked: " ++ pr.1 ++ " (" ++ fmtMB pr.2 ++
      " MB) — consider .gitignore or Git LFS")

/-- size.rs validate, as the full list of results it appends. -/
def sizeValidateResults (files : List SizeEntry) : List CheckResult :=
  aggregateSizeResult files :: (perFileSizeResults files ++ binarySizeResults files)

end RS

/-- C1: for every Report, has_failures is true iff at least one CheckResult in
its results has severity Fail; results that are all Pass or Warn never make it
true. -/
theorem RS.C1_has_failures_iff (r : RS.Report) :
    (r.has_failures = true ↔ ∃ c ∈ r.results, c.status = RS.Status.Fail) ∧
    ((∀ c ∈ r.results, c.status ≠ RS.Status.Fail) → r.has_failures = false) := by
  constructor
  · rw [RS.Report.has_failures, List.any_eq_true]
    constructor
    · rintro ⟨c, hc, hfail⟩
      refine ⟨c, hc, ?_⟩
      unfold RS.isFail at hfail
      cases h : c.status
      · rw [h] at hfail; exact absurd hfail (by decide)
      · rfl
      · rw [h] at hfail; exact absurd hfail (by decide)
    · rintro ⟨c, hc, hfail⟩
      exact ⟨c, hc, by unfold RS.isFail; rw [hfail]⟩
  · intro hall
    rw [RS.Report.has_failures]
    rw [List.any_eq_false]
    intro c hc
    have := hall c hc
    unfold RS.isFail
    cases h : c.status
    · decide
    · exact absurd h this
    · decide

/-- Witness for C1 at a concrete report with one Pass and one Warn result. -/
theorem RS.C1_has_failures_iff_witness :
    (RS.Report.mk [⟨"Git", "clean", RS.Status.Pass⟩,
      ⟨"Size", "big", RS.Status.Warn⟩]).has_failures = false :=
  (RS.C1_has_failures_iff _).2 (by decide)

/-- matchLit consumes exactly the literal prefix. -/
theorem RS.matchLit_eq_some_iff (l : List Char) :
    ∀ s r, RS.matchLit l s = some r ↔ s = l ++ r := by
  induction l with
  | nil => intro s r; simp [RS.matchLit]
  | cons c cs ih =>
    intro s r
    cases s with
    | nil => simp [RS.matchLit]
    | cons d ds =>
      rw [RS.matchLit]
      by_cases h : d = c
      · rw [if_pos h, ih, h]
        simp
      · rw [if_neg h]
        simp [h]

/-- matchDigits n consumes exactly a block of n digits. -/
theorem RS.matchDigits_eq_some_iff (n : Nat) :
    ∀ s r, RS.matchDigits n s = some r ↔
      ∃ d, s = d ++ r ∧ d.length = n ∧ ∀ c ∈ d, c.isDigit = true := by
  induction n with
  | zero =>
    intro s r
    rw [RS.matchDigits]
    constructor
    · intro h
      obtain rfl : s = r := by simpa using h
      exact ⟨[], by simp⟩
    · rintro ⟨d, hs, hlen, _⟩
      rw [List.length_eq_zero] at hlen
      subst hlen
      simpa using hs
  | succ n ih =>
    intro s r
    cases s with
    | nil =>
      rw [RS.matchDigits]
      constructor
      · intro h; cases h
      · rintro ⟨d, hs, hlen, _⟩
        have h0 := congrArg List.length hs
        simp [hlen] at h0
        omega
    | cons c cs =>
      rw [RS.matchDigits]
      by_cases h : c.isDigit
      · rw [if_pos h, ih]
        constructor
        · rintro ⟨d, hds, hlen, hdig⟩
          refine ⟨c :: d, by simp [hds], by simp [hlen], ?_⟩
          intro x hx
          rcases List.mem_cons.mp hx with rfl | hx
          · exact h
          · exact hdig x hx
        · rintro ⟨d, hs, hlen, hdig⟩
          cases d with
          | nil => cases hlen
          | cons e es =>
            rw [List.cons_append] at hs
            injection hs with hce hcs
            exact ⟨es, hcs, by simpa using hlen, fun x hx => hdig x (by simp [hx])⟩
      · rw [if_neg h]
        constructor
        · intro hx; cases hx
        · rintro ⟨d, hs, hlen, hdig⟩
          cases d with
          | nil => cases hlen
          | cons e es =>
            rw [List.cons_append] at hs
            injection hs with hce hcs
            exact absurd (hce ▸ hdig e (by simp)) h

/-- matchOrcidFinal consumes exactly one digit-or-X character. -/
theorem RS.matchOrcidFinal_eq_some_iff (s r : List Char) :
    RS.matchOrcidFinal s = some r ↔
      ∃ c, s = c :: r ∧ (c.isDigit = true ∨ c = 'X') := by
  cases s with
  | nil => simp [RS.matchOrcidFinal]
  | cons c cs =>
    rw [RS.matchOrcidFinal]
    by_cases h : c.isDigit = true ∨ c = 'X'
    · rw [if_pos h]
      constructor
      · intro he
        obtain rfl : cs = r := by simpa using he
        exact ⟨c, rfl, h⟩
      · rintro ⟨e, hs, he⟩
        injection hs with hce hcs
        rw [hcs]
    · rw [if_neg h]
      constructor
      · intro hx; cases hx
      · rintro ⟨e, hs, he⟩
        injection hs with hce hcs
        exact absurd (hce ▸ he) h

/-- The embedded ORCID regex accepts exactly the strings of the claimed shape. -/
theorem RS.orcidMatch_iff_shape (s : String) :
    RS.orcidMatch s = true ↔ RS.OrcidShape s := by
  rw [RS.orcidMatch, decide_eq_true_iff, RS.orcidScan]
  simp only [Option.bind_eq_some]
  constructor
  · rintro ⟨r1, h1, r2, h2, r3, h3, r4, h4, r5, h5, r6, h6, r7, h7, r8, h8, hfin⟩
    rw [RS.matchLit_eq_some_iff] at h1 h3 h5 h7
    rw [RS.matchDigits_eq_some_iff] at h2 h4 h6 h8
    rw [RS.matchOrcidFinal_eq_some_iff] at hfin
    obtain ⟨g1, rfl, hg1len, hg1⟩ := h2
    obtain ⟨g2, rfl, hg2len, hg2⟩ := h4
    obtain ⟨g3, rfl, hg3len, hg3⟩ := h6
    obtain ⟨g4, rfl, hg4len, hg4⟩ := h8
    obtain ⟨c, rfl, hc⟩ := hfin
    refine ⟨g1, g2, g3, g4, c, ?_, hg1len, hg2len, hg3len, hg4len, ?_, hc⟩
    · rw [h1, h3, h5, h7]
      simp [List.append_assoc]
    · intro d hd
      simp only [List.mem_append] at hd
      rcases hd with ((hd | hd) | hd) | hd
      · exact hg1 d hd
      · exact hg2 d hd
      · exact hg3 d hd
      · exact hg4 d hd
  · rintro ⟨g1, g2, g3, g4, c, hs, h1len, h2len, h3len, h4len, hdig, hc⟩
    refine ⟨g1 ++ ('-' :: (g2 ++ ('-' :: (g3 ++ ('-' :: (g4 ++ [c])))))),
      (RS.matchLit_eq_some_iff _ _ _).mpr ?_,
      '-' :: (g2 ++ ('-' :: (g3 ++ ('-' :: (g4 ++ [c]))))),
      (RS.matchDigits_eq_some_iff _ _ _).mpr
        ⟨g1, rfl, h1len, fun d hd => hdig d (by simp [hd])⟩,
      g2 ++ ('-' :: (g3 ++ ('-' :: (g4 ++ [c])))),
      (RS.matchLit_eq_some_iff _ _ _).mpr rfl,
      '-' :: (g3 ++ ('-' :: (g4 ++ [c]))),
      (RS.matchDigits_eq_some_iff _ _ _).mpr
        ⟨g2, rfl, h2len, fun d hd => hdig d (by simp [hd])⟩,
      g3 ++ ('-' :: (g4 ++ [c])),
      (RS.matchLit_eq_some_iff _ _ _).mpr rfl,
      '-' :: (g4 ++ [c]),
      (RS.matchDigits_eq_some_iff _ _ _).mpr
        ⟨g3, rfl, h3len, fun d hd => hdig d (by simp [hd])⟩,
      g4 ++ [c],
      (RS.matchLit_eq_some_iff _ _ _).mpr rfl,
      [c],
      (RS.matchDigits_eq_some_iff _ _ _).mpr
        ⟨g4, rfl, h4len, fun d hd => hdig d (by simp [hd])⟩,
      (RS.matchOrcidFinal_eq_some_iff _ _).mpr ⟨c, rfl, hc⟩⟩
    rw [hs]
    simp [List.append_assoc]

/-- C3: the per-author ORCID check accepts exactly the strings of the form
https prefix then four hyphen-separated four-character groups with fifteen
digits and a final digit-or-X; the given concrete inputs produce Pass, Fail,
Fail respectively, and a Fail message quotes the offending value. -/
theorem RS.C3_orcid_check (s : String) (i : Nat) :
    ((RS.authorOrcidResult i s).status = RS.Status.Pass ↔ RS.OrcidShape s) ∧
    ((RS.authorOrcidResult i s).status ≠ RS.Status.Pass →
      (RS.authorOrcidResult i s).status = RS.Status.Fail ∧
      (RS.authorOrcidResult i s).message =
        "Author " ++ toString (i + 1) ++ " ORCID invalid: " ++ s) ∧
    (RS.authorOrcidResult 0 "https://orcid.org/0000-0002-1825-0097").status =
      RS.Status.Pass ∧
    (RS.authorOrcidResult 0 "https://orcid.org/0000-0002-1825-009").status =
      RS.Status.Fail ∧
    (RS.authorOrcidResult 0 "0000-0002-1825-0097").status = RS.Status.Fail := by
  refine ⟨?_, ?_, by decide, by decide, by decide⟩
  · rw [← RS.orcidMatch_iff_shape]
    unfold RS.authorOrcidResult
    by_cases h : RS.orcidMatch s
    · rw [if_pos h]
      simp [RS.passR, h]
    · rw [if_neg h]
      simp [RS.failR]
      simpa using h
  · intro hne
    unfold RS.authorOrcidResult at hne ⊢
    by_cases h : RS.orcidMatch s
    · rw [if_pos h] at hne
      exact absurd rfl hne
    · rw [if_neg h]
      exact ⟨rfl, rfl⟩

/-- Witness for C3: the scheme-less value is rejected with the value quoted. -/
theorem RS.C3_orcid_check_witness :
    (RS.authorOrcidResult 0 "0000-0002-1825-0097").status = RS.Status.Fail ∧
    (RS.authorOrcidResult 0 "0000-0002-1825-0097").message =
      "Author " ++ toString (0 + 1) ++ " ORCID invalid: " ++ "0000-0002-1825-0097" :=
  (RS.C3_orcid_check "0000-0002-1825-0097" 0).2.1 (by decide)

/-- C4: with a tag-derived version supplied, exactly one version-consistency
result is emitted: Fail when the document field is absent, Fail quoting both
values when unequal, Pass when equal; with no tag-derived version (no GitInfo
from the inspector) no version result is emitted at all. -/
theorem RS.C4_version_consistency (e v : String) (d : Option String) :
    RS.versionCheckResults (RS.expectedVersionOf none) d = [] ∧
    (RS.versionCheckResults (some e) d).length = 1 ∧
    RS.versionCheckResults (some e) none = [RS.failR "Citation" "version missing"] ∧
    (v ≠ e → RS.versionCheckResults (some e) (some v) =
      [RS.failR "Citation" ("version " ++ RS.sq ++ v ++ RS.sq ++
        " does not match git tag " ++ RS.sq ++ e ++ RS.sq)]) ∧
    RS.versionCheckResults (some e) (some e) =
      [RS.passR "Citation" ("version matches git tag (" ++ e ++ ")")] := by
  refine ⟨rfl, ?_, rfl, ?_, ?_⟩
  · cases d with
    | none => rfl
    | some v2 =>
      simp only [RS.versionCheckResults]
      split
      · rfl
      · rfl
  · intro h
    simp only [RS.versionCheckResults]
    rw [if_neg h]
  · simp [RS.versionCheckResults]

/-- Witness for C4 at the spec's concrete example pair 1.9.9 vs 2.0.0. -/
theorem RS.C4_version_consistency_witness :
    RS.versionCheckResults (some "2.0.0") (some "1.9.9") =
      [RS.failR "Citation" ("version " ++ RS.sq ++ "1.9.9" ++ RS.sq ++
        " does not match git tag " ++ RS.sq ++ "2.0.0" ++ RS.sq)] :=
  (RS.C4_version_consistency "2.0.0" "1.9.9" none).2.2.2.1 (by decide)

/-- C9: every status entry that does not carry the ignored bit is dirty; zero
dirty entries give exactly one Pass, otherwise exactly one Warn listing at
most 5 dirty paths and the total dirty count; the cleanliness check never
produces a Fail. -/
theorem RS.C9_cleanliness (entries : List RS.StatusEntry) :
    (∀ e ∈ entries, Nat.testBit e.status 14 = false →
      e.path.getD "?" ∈ RS.dirtyPaths entries) ∧
    (RS.dirtyPaths entries = [] →
      RS.cleanlinessResult entries = RS.passR "Git" "Working directory is clean") ∧
    (RS.dirtyPaths entries ≠ [] →
      (RS.cleanlinessResult entries).status = RS.Status.Warn ∧
      (RS.cleanlinessResult entries).message =
        "Working directory has " ++ toString (RS.dirtyPaths entries).length ++
        " uncommitted change(s): " ++
        String.intercalate ", " ((RS.dirtyPaths entries).take 5) ∧
      ((RS.dirtyPaths entries).take 5).length ≤ 5) ∧
    (RS.cleanlinessResult entries).status ≠ RS.Status.Fail := by
  refine ⟨?_, ?_, ?_, ?_⟩
  · intro e he hbit
    have hne : e.status ≠ RS.STATUS_IGNORED := by
      intro heq
      rw [heq] at hbit
      exact absurd hbit (by decide)
    exact List.mem_map_of_mem _
      (List.mem_filter.mpr ⟨he, by simpa [bne_iff_ne] using hne⟩)
  · intro h
    unfold RS.cleanlinessResult
    rw [h]
    rfl
  · intro h
    have hni : (RS.dirtyPaths entries).isEmpty = false := by
      cases hd : RS.dirtyPaths entries
      · exact absurd hd h
      · rfl
    unfold RS.cleanlinessResult
    rw [hni]
    exact ⟨rfl, rfl, List.length_take_le _ _⟩
  · unfold RS.cleanlinessResult
    by_cases h : (RS.dirtyPaths entries).isEmpty = true
    · rw [if_pos h]
      intro hcon
      cases hcon
    · rw [if_neg h]
      intro hcon
      cases hcon

/-- Witness for C9 at one dirty entry (status bit WT_NEW). -/
theorem RS.C9_cleanliness_witness :
    (RS.cleanlinessResult [⟨some "a.txt", 128⟩]).status = RS.Status.Warn :=
  ((RS.C9_cleanliness [⟨some "a.txt", 128⟩]).2.2.1 (by decide)).1

/-- The head of dropWhile never satisfies the predicate. -/
theorem RS.dropWhile_head_not (p : Char → Bool) :
    ∀ (l : List Char) (c : Char), (l.dropWhile p).head? = some c → p c = false := by
  intro l
  induction l with
  | nil => intro c h; cases h
  | cons d ds ih =>
    intro c h
    by_cases hp : p d
    · rw [List.dropWhile_cons_of_pos hp] at h
      exact ih c h
    · rw [List.dropWhile_cons_of_neg hp] at h
      obtain rfl : d = c := by simpa using h
      simpa using hp

/-- dropWhile skips over a block that satisfies the predicate everywhere. -/
theorem RS.dropWhile_append_of_all (p : Char → Bool) :
    ∀ (d r : List Char), (∀ c ∈ d, p c = true) →
      (d ++ r).dropWhile p = r.dropWhile p := by
  intro d
  induction d with
  | nil => intro r _; rfl
  | cons e es ih =>
    intro r hall
    rw [List.cons_append, List.dropWhile_cons_of_pos (hall e (by simp))]
    exact ih r fun c hc => hall c (by simp [hc])

/-- dropWhile is the identity when the head does not satisfy the predicate. -/
theorem RS.dropWhile_eq_self_of_head (p : Char → Bool) (r : List Char)
    (h : ∀ c, r.head? = some c → p c = false) : r.dropWhile p = r := by
  cases r with
  | nil => rfl
  | cons c cs =>
    have := h c rfl
    rw [List.dropWhile_cons_of_neg (by simp [this])]

/-- matchNum consumes exactly the maximal nonempty leading digit block. -/
theorem RS.matchNum_eq_some_iff (s r : List Char) :
    RS.matchNum s = some r ↔
      ∃ d, s = d ++ r ∧ d ≠ [] ∧ (∀ c ∈ d, c.isDigit = true) ∧
        (∀ c, r.head? = some c → c.isDigit = false) := by
  constructor
  · cases s with
    | nil => intro h; cases h
    | cons c cs =>
      rw [RS.matchNum]
      by_cases hc : c.isDigit
      · rw [if_pos hc]
        intro h
        obtain rfl : r = cs.dropWhile Char.isDigit := by
          injection h with h2
          exact h2.symm
        refine ⟨c :: cs.takeWhile Char.isDigit, ?_, by simp, ?_, ?_⟩
        · rw [List.cons_append, List.takeWhile_append_dropWhile]
        · intro x hx
          rcases List.mem_cons.mp hx with rfl | hx
          · exact hc
          · exact List.mem_takeWhile_imp hx
        · intro x hx
          exact RS.dropWhile_head_not _ _ _ hx
      · rw [if_neg hc]
        intro h
        cases h
  · rintro ⟨d, rfl, hne, hdig, hhead⟩
    cases d with
    | nil => exact absurd rfl hne
    | cons e es =>
      rw [List.cons_append, RS.matchNum, if_pos (hdig e (by simp))]
      rw [RS.dropWhile_append_of_all _ es _ fun c hc => hdig c (by simp [hc])]
      rw [RS.dropWhile_eq_self_of_head _ _ hhead]

/-- The semver body scanner accepts exactly three nonempty dot-separated
digit groups. -/
theorem RS.semverBodyScan_some_nil_iff (s : List Char) :
    RS.semverBodyScan s = some [] ↔
      ∃ d1 d2 d3 : List Char,
        s = d1 ++ ['.'] ++ d2 ++ ['.'] ++ d3 ∧
        d1 ≠ [] ∧ d2 ≠ [] ∧ d3 ≠ [] ∧ (∀ c ∈ d1 ++ d2 ++ d3, c.isDigit = true) := by
  rw [RS.semverBodyScan]
  simp only [Option.bind_eq_some]
  constructor
  · rintro ⟨r1, h1, r2, h2, r3, h3, r4, h4, h5⟩
    rw [RS.matchNum_eq_some_iff] at h1 h3 h5
    rw [RS.matchLit_eq_some_iff] at h2 h4
    obtain ⟨d1, rfl, hne1, hd1, hh1⟩ := h1
    obtain ⟨d2, hr2, hne2, hd2, hh2⟩ := h3
    obtain ⟨d3, hr4, hne3, hd3, hh3⟩ := h5
    subst h2
    subst hr2
    subst h4
    subst hr4
    refine ⟨d1, d2, d3, ?_, hne1, hne2, hne3, ?_⟩
    · simp [List.append_assoc]
    · intro c hc
      simp only [List.mem_append] at hc
      rcases hc with (hc | hc) | hc
      · exact hd1 c hc
      · exact hd2 c hc
      · exact hd3 c hc
  · rintro ⟨d1, d2, d3, rfl, hne1, hne2, hne3, hdig⟩
    refine ⟨'.' :: (d2 ++ ('.' :: d3)),
      (RS.matchNum_eq_some_iff _ _).mpr
        ⟨d1, by simp [List.append_assoc], hne1,
          fun c hc => hdig c (by simp [hc]), by simp⟩,
      d2 ++ ('.' :: d3),
      (RS.matchLit_eq_some_iff _ _ _).mpr rfl,
      '.' :: d3,
      (RS.matchNum_eq_some_iff _ _).mpr
        ⟨d2, rfl, hne2, fun c hc => hdig c (by simp [hc]), by simp⟩,
      d3,
      (RS.matchLit_eq_some_iff _ _ _).mpr rfl,
      (RS.matchNum_eq_some_iff _ _).mpr
        ⟨d3, by simp, hne3, fun c hc => hdig c (by simp [hc]), by simp⟩⟩

/-- semverCapture returns v exactly when the name is v prefixed to a
dotted-digit-groups version string. -/
theorem RS.semverCapture_eq_some_iff (n v : String) :
    RS.semverCapture n = some v ↔ n = "v" ++ v ∧ RS.SemverShape v := by
  obtain ⟨l⟩ := n
  obtain ⟨lv⟩ := v
  constructor
  · intro h
    unfold RS.semverCapture at h
    cases l with
    | nil => cases h
    | cons c rest =>
      simp only at h
      by_cases hc : c = 'v'
      · rw [if_pos hc] at h
        subst hc
        cases hb : RS.semverBodyScan rest with
        | none => rw [hb] at h; cases h
        | some rem =>
          cases rem with
          | nil =>
            rw [hb] at h
            obtain rfl : rest = lv := by
              have h2 : String.mk rest = String.mk lv := by simpa using h
              injection h2
            exact ⟨rfl, (RS.semverBodyScan_some_nil_iff rest).mp hb⟩
          | cons x xs => rw [hb] at h; cases h
      · rw [if_neg hc] at h
        cases h
  · rintro ⟨heq, hshape⟩
    obtain rfl : l = 'v' :: lv := by
      have h2 := congrArg String.data heq
      simpa using h2
    have hb : RS.semverBodyScan lv = some [] :=
      (RS.semverBodyScan_some_nil_iff lv).mpr hshape
    unfold RS.semverCapture
    simp [hb]

/-- The search loop of git.rs lines 68-85 returns the first tag, in
enumeration order, that is semver and resolves to head. -/
theorem RS.findSemverTag_eq_findSome (resolve : String → Option RS.CommitId)
    (head : RS.CommitId) :
    ∀ tags, RS.findSemverTag tags resolve head =
      tags.findSome? (fun o => o.bind fun nm => (RS.semverCapture nm).bind fun ver =>
        (resolve nm).bind fun oid => if oid = head then some (nm, ver) else none) := by
  intro tags
  induction tags with
  | nil => rfl
  | cons t rest ih =>
    rw [List.findSome?_cons]
    cases t with
    | none =>
      rw [RS.findSemverTag]
      simpa using ih
    | some name =>
      rw [RS.findSemverTag]
      cases hc : RS.semverCapture name with
      | none => simpa [hc] using ih
      | some ver =>
        cases hr : resolve name with
        | none => simpa [hc, hr] using ih
        | some oid =>
          by_cases ho : oid = head
          · simp [hc, hr, ho]
          · simpa [hc, hr, ho] using ih

/-- A successful search result is a semver capture that resolves to head. -/
theorem RS.findSemverTag_some_spec (resolve : String → Option RS.CommitId)
    (head : RS.CommitId) (tags : List (Option String)) (t v : String)
    (h : RS.findSemverTag tags resolve head = some (t, v)) :
    RS.semverCapture t = some v ∧ resolve t = some head := by
  rw [RS.findSemverTag_eq_findSome] at h
  obtain ⟨o, ho, hf⟩ := List.exists_of_findSome?_eq_some h
  simp only [Option.bind_eq_some] at hf
  obtain ⟨nm, rfl, ver, hver, oid, hoid, hf⟩ := hf
  by_cases hh : oid = head
  · rw [if_pos hh] at hf
    injection hf with hf2
    cases hf2
    exact ⟨hver, hh ▸ hoid⟩
  · rw [if_neg hh] at hf
    cases hf

/-- C5: tag resolution accepts the first tag in enumeration order that is a
strict semver tag peeled to the head commit; on success it emits exactly one
Pass and returns GitInfo with the full tag name and the name without the
leading v as version; with no such tag it emits exactly one Fail and returns
none. -/
theorem RS.C5_tag_resolution (tags : List (Option String))
    (resolve : String → Option RS.CommitId) (head : RS.CommitId) :
    ((RS.tagResolution tags resolve head).1).length = 1 ∧
    (RS.findSemverTag tags resolve head =
      tags.findSome? (fun o => o.bind fun nm => (RS.semverCapture nm).bind fun ver =>
        (resolve nm).bind fun oid => if oid = head then some (nm, ver) else none)) ∧
    (∀ t v, RS.findSemverTag tags resolve head = some (t, v) →
      RS.tagResolution tags resolve head =
        ([RS.passR "Git" ("HEAD is tagged: " ++ t ++ " (version " ++ v ++ ")")],
          some ⟨v, t⟩) ∧
      t = "v" ++ v ∧ RS.SemverShape v ∧ resolve t = some head) ∧
    (RS.findSemverTag tags resolve head = none →
      RS.tagResolution tags resolve head =
        ([RS.failR "Git" "HEAD has no semver tag (expected vX.Y.Z)"], none)) := by
  refine ⟨?_, RS.findSemverTag_eq_findSome resolve head tags, ?_, ?_⟩
  · unfold RS.tagResolution
    cases RS.findSemverTag tags resolve head with
    | none => rfl
    | some p => rfl
  · intro t v h
    have hspec := RS.findSemverTag_some_spec resolve head tags t v h
    have hcap := (RS.semverCapture_eq_some_iff t v).mp hspec.1
    refine ⟨?_, hcap.1, hcap.2, hspec.2⟩
    unfold RS.tagResolution
    rw [h]
  · intro h
    unfold RS.tagResolution
    rw [h]

/-- Witness for C5: head tagged v1.2.3 yields one Pass and
GitInfo with version 1.2.3 and tag v1.2.3. -/
theorem RS.C5_tag_resolution_witness :
    RS.tagResolution [some "v1.2.3"] (fun _ => some 7) 7 =
      ([RS.passR "Git" ("HEAD is tagged: " ++ "v1.2.3" ++
        " (version " ++ "1.2.3" ++ ")")], some ⟨"1.2.3", "v1.2.3"⟩) :=
  ((RS.C5_tag_resolution [some "v1.2.3"] (fun _ => some 7) 7).2.2.1 "v1.2.3" "1.2.3"
    (by decide)).1

/-- C10: an index entry whose working-tree read fails (missing on disk or not
UTF-8) contributes no result to the tracked-content secret scan: removing it
leaves the scan output unchanged, so such an entry can never trigger a Fail
or Warn, and a secret present only in the staged blob is not detected. -/
theorem RS.C10_unreadable_entry_skipped (m : String → String → Bool)
    (pre post : List RS.TrackedEntry) (p : String) :
    RS.scanTrackedFiles m (pre ++ RS.TrackedEntry.mk p none :: post) =
      RS.scanTrackedFiles m (pre ++ post) ∧
    RS.entrySecretResults m (RS.TrackedEntry.mk p none) = [] := by
  refine ⟨?_, rfl⟩
  unfold RS.scanTrackedFiles
  have h : (pre ++ RS.TrackedEntry.mk p none :: post).flatMap (RS.entrySecretResults m) =
      (pre ++ post).flatMap (RS.entrySecretResults m) := by
    simp [RS.entrySecretResults]
  rw [h]

/-- The loop state equals the spec mirrors: the counter is countLoop and the
flag accumulates any hit over the inspected diffs. -/
theorem RS.scanLoop_eq (m : String → String → Bool) :
    ∀ (walk : List RS.WalkItem) (k : Nat) (flag : Bool),
      RS.scanLoop m walk k flag =
        (RS.countLoop walk k,
         flag || (RS.inspectLoop walk k).any fun ls => ls.any (RS.lineHit m)) := by
  intro walk
  induction walk with
  | nil => intro k flag; simp [RS.scanLoop, RS.countLoop, RS.inspectLoop]
  | cons it rest ih =>
    intro k flag
    cases it with
    | none => simp [RS.scanLoop, RS.countLoop, RS.inspectLoop, ih]
    | some c =>
      by_cases hk : k ≥ RS.MAX_COMMITS
      · simp [RS.scanLoop, RS.countLoop, RS.inspectLoop, hk]
      · cases c with
        | none => simp [RS.scanLoop, RS.countLoop, RS.inspectLoop, hk, ih]
        | some lines =>
          simp [RS.scanLoop, RS.countLoop, RS.inspectLoop, hk, ih, Bool.or_assoc]

/-- The counter is the number of valid oids, capped at MAX_COMMITS. -/
theorem RS.countLoop_eq_min :
    ∀ (walk : List RS.WalkItem) (k : Nat), k ≤ RS.MAX_COMMITS →
      RS.countLoop walk k = min (k + RS.validCount walk) RS.MAX_COMMITS := by
  intro walk
  induction walk with
  | nil =>
    intro k hk
    rw [RS.countLoop]
    unfold RS.validCount
    simp
    exact hk
  | cons it rest ih =>
    intro k hk
    cases it with
    | none =>
      simp only [RS.countLoop]
      rw [ih k hk]
      congr 1
    | some c =>
      have hstep : RS.countLoop (some c :: rest) k =
          if k ≥ RS.MAX_COMMITS then k else RS.countLoop rest (k + 1) := by
        cases c
        · rfl
        · rfl
      rw [hstep]
      by_cases hk2 : k ≥ RS.MAX_COMMITS
      · rw [if_pos hk2]
        have hkeq : k = RS.MAX_COMMITS := le_antisymm hk hk2
        subst hkeq
        exact (Nat.min_eq_right (Nat.le_add_right _ _)).symm
      · rw [if_neg hk2, ih (k + 1) (by omega)]
        have hv : RS.validCount (some c :: rest) = RS.validCount rest + 1 := by
          unfold RS.validCount
          rw [List.countP_cons]
          simp
        rw [hv]
        congr 1
        omega

/-- At most counter-many diffs are inspected. -/
theorem RS.inspectLoop_length_le :
    ∀ (walk : List RS.WalkItem) (k : Nat),
      (RS.inspectLoop walk k).length + k ≤ RS.countLoop walk k := by
  intro walk
  induction walk with
  | nil => intro k; simp [RS.inspectLoop, RS.countLoop]
  | cons it rest ih =>
    intro k
    cases it with
    | none => simpa [RS.inspectLoop, RS.countLoop] using ih k
    | some c =>
      by_cases hk : k ≥ RS.MAX_COMMITS
      · simp [RS.inspectLoop, RS.countLoop, hk]
      · cases c with
        | none =>
          have h := ih (k + 1)
          simp [RS.inspectLoop, RS.countLoop, hk]
          omega
        | some lines =>
          have h := ih (k + 1)
          simp [RS.inspectLoop, RS.countLoop, hk]
          omega

/-- C2: the history scanner counts at most 100 commits: the final counter is
the number of valid oids capped at 100, at most 100 diffs are inspected, and
the count reported in the Pass message is that capped counter. -/
theorem RS.C2_history_cap (m : String → String → Bool) (walk : List RS.WalkItem) :
    (RS.scanLoop m walk 0 false).1 = min (RS.validCount walk) RS.MAX_COMMITS ∧
    (RS.scanLoop m walk 0 false).1 ≤ 100 ∧
    (RS.inspectedDiffs walk).length ≤ 100 ∧
    (∀ r ∈ RS.scanGitHistory m walk, r.status = RS.Status.Pass →
      r.message = "No secrets found in git history (" ++
        toString (RS.scanLoop m walk 0 false).1 ++ " commits scanned)") := by
  have h1 : (RS.scanLoop m walk 0 false).1 = RS.countLoop walk 0 := by
    rw [RS.scanLoop_eq]
  have h2 : RS.countLoop walk 0 = min (RS.validCount walk) RS.MAX_COMMITS := by
    have h := RS.countLoop_eq_min walk 0 (Nat.zero_le _)
    simpa using h
  have hmax : RS.MAX_COMMITS = 100 := rfl
  have hle : RS.countLoop walk 0 ≤ 100 := by
    rw [h2]
    have := min_le_right (RS.validCount walk) RS.MAX_COMMITS
    omega
  refine ⟨h1.trans h2, by rw [h1]; exact hle, ?_, ?_⟩
  · have h3 := RS.inspectLoop_length_le walk 0
    have h4 : RS.inspectedDiffs walk = RS.inspectLoop walk 0 := rfl
    rw [h4]
    omega
  · intro r hr hst
    unfold RS.scanGitHistory at hr
    by_cases hf : (RS.scanLoop m walk 0 false).2
    · rw [if_pos hf] at hr
      simp at hr
      rw [hr] at hst
      exact absurd hst (by decide)
    · rw [if_neg hf] at hr
      simp at hr
      rw [hr]
      rfl

/-- Witness for C2 at a one-commit walk: the Pass message reports the count. -/
theorem RS.C2_history_cap_witness :
    (RS.passR "Security" "No secrets found in git history (1 commits scanned)").message =
      "No secrets found in git history (" ++
        toString (RS.scanLoop (fun _ _ => false) [some (some [])] 0 false).1 ++
        " commits scanned)" :=
  (RS.C2_history_cap (fun _ _ => false) [some (some [])]).2.2.2
    (RS.passR "Security" "No secrets found in git history (1 commits scanned)")
    (by decide) (by decide)

/-- any respects pointwise-equal predicates. -/
theorem RS.list_any_congr {α : Type} (p q : α → Bool) :
    ∀ l : List α, (∀ a ∈ l, p a = q a) → l.any p = l.any q := by
  intro l
  induction l with
  | nil => intro _; rfl
  | cons a as ih =>
    intro h
    rw [List.any_cons, List.any_cons, h a (by simp),
      ih fun b hb => h b (by simp [hb])]

/-- C7: the history scan uses only the high-confidence rules, inspects only
added and context lines of the inspected diffs, and emits exactly one result:
a single Warn when any inspected line matched any high-confidence rule,
otherwise a single Pass reporting the number of commits examined; rules not
marked high-confidence never influence the outcome. -/
theorem RS.C7_history_scan (m : String → String → Bool) (walk : List RS.WalkItem) :
    (RS.scanGitHistory m walk).length = 1 ∧
    ((RS.scanLoop m walk 0 false).2 = true ↔
      ∃ ls ∈ RS.inspectedDiffs walk, ∃ l ∈ ls,
        (l.origin = '+' ∨ l.origin = ' ') ∧
        ∃ r ∈ RS.SECRET_PATTERNS, r.is_fail = true ∧ m r.pattern l.content = true) ∧
    ((RS.scanLoop m walk 0 false).2 = true →
      RS.scanGitHistory m walk =
        [RS.warnR "Security"
          "Potential secrets found in git history (review recommended)"]) ∧
    ((RS.scanLoop m walk 0 false).2 = false →
      RS.scanGitHistory m walk =
        [RS.passR "Security" ("No secrets found in git history (" ++
          toString (RS.scanLoop m walk 0 false).1 ++ " commits scanned)")]) ∧
    (∀ m2 : String → String → Bool,
      (∀ r ∈ RS.SECRET_PATTERNS, r.is_fail = true →
        ∀ s, m r.pattern s = m2 r.pattern s) →
      RS.scanGitHistory m walk = RS.scanGitHistory m2 walk) := by
  refine ⟨?_, ?_, ?_, ?_, ?_⟩
  · unfold RS.scanGitHistory
    by_cases hf : (RS.scanLoop m walk 0 false).2
    · rw [if_pos hf]; rfl
    · rw [if_neg hf]; rfl
  · simp only [RS.scanLoop_eq, Bool.false_or]
    rw [List.any_eq_true]
    constructor
    · rintro ⟨ls, hls, hany⟩
      rw [List.any_eq_true] at hany
      obtain ⟨l, hl, hhit⟩ := hany
      unfold RS.lineHit at hhit
      rw [Bool.and_eq_true] at hhit
      obtain ⟨horig, hpat⟩ := hhit
      rw [List.any_eq_true] at hpat
      obtain ⟨r, hrmem, hrm⟩ := hpat
      simp only [RS.HIGH_PATTERNS] at hrmem
      rw [List.mem_filter] at hrmem
      refine ⟨ls, hls, l, hl, ?_, r, hrmem.1, hrmem.2, hrm⟩
      rw [Bool.or_eq_true] at horig
      rcases horig with h | h
      · exact Or.inl (by simpa using h)
      · exact Or.inr (by simpa using h)
    · rintro ⟨ls, hls, l, hl, horig, r, hrmem, hrfail, hrm⟩
      refine ⟨ls, hls, ?_⟩
      rw [List.any_eq_true]
      refine ⟨l, hl, ?_⟩
      unfold RS.lineHit
      rw [Bool.and_eq_true]
      constructor
      · rw [Bool.or_eq_true]
        rcases horig with h | h
        · exact Or.inl (by simpa using h)
        · exact Or.inr (by simpa using h)
      · rw [List.any_eq_true]
        refine ⟨r, ?_, hrm⟩
        simp only [RS.HIGH_PATTERNS]
        rw [List.mem_filter]
        exact ⟨hrmem, hrfail⟩
  · intro hf
    unfold RS.scanGitHistory
    rw [if_pos hf]
  · intro hf
    unfold RS.scanGitHistory
    rw [if_neg (by simp [hf])]
  · intro m2 hagree
    have hfun : RS.lineHit m = RS.lineHit m2 := by
      funext l
      unfold RS.lineHit
      congr 1
      apply RS.list_any_congr
      intro r hr
      simp only [RS.HIGH_PATTERNS] at hr
      rw [List.mem_filter] at hr
      exact hagree r hr.1 hr.2 l.content
    unfold RS.scanGitHistory
    rw [RS.scanLoop_eq, RS.scanLoop_eq, hfun]

/-- Witness for C7 on the empty walk: exactly one Pass, zero commits. -/
theorem RS.C7_history_scan_witness :
    RS.scanGitHistory (fun _ _ => false) [] =
      [RS.passR "Security" ("No secrets found in git history (" ++
        toString (RS.scanLoop (fun _ _ => false) ([] : List RS.WalkItem) 0 false).1 ++
        " commits scanned)")] :=
  (RS.C7_history_scan (fun _ _ => false) []).2.2.2.1 (by decide)

/-- C8 counterexample: with ignore content consisting of the single
non-comment, non-blank line secret.env, the recommended pattern .env is a
suffix of that line, yet gitignore_contains does not count it present and the
audit result is a Warn whose missing list names .env: the audit does no
suffix matching. -/
theorem RS.C8_counterexample :
    List.isSuffixOf ".env".data "secret.env".data = true ∧
    RS.rustLines "secret.env" = ["secret.env".data] ∧
    (RS.trimChars "secret.env".data).isEmpty = false ∧
    (RS.trimChars "secret.env".data).head? ≠ some '#' ∧
    RS.gitignore_contains "secret.env" ".env" = false ∧
    RS.auditGitignoreSecurity "secret.env" =
      RS.warnR "Gitignore"
        "Missing security patterns: .env, .DS_Store, *.pem, *.key, id_rsa" := by
  decide

/-- C8 (amended): a recommended security pattern counts as present exactly
when some non-comment, non-blank line of the ignore file, after trimming,
equals the pattern literally or equals the pattern with its trailing slashes
removed (suffix matches do not count); every pattern present yields one Pass,
and any missing pattern yields one Warn naming the missing patterns. -/
theorem RS.C8_gitignore_audit (content : String) :
    (∀ p : String, RS.gitignore_contains content p = true ↔
      ∃ line ∈ RS.rustLines content,
        (RS.trimChars line).isEmpty = false ∧
        (RS.trimChars line).head? ≠ some '#' ∧
        (RS.trimChars line = p.data ∨
         RS.trimChars line = (RS.trimEndSlashes p).data)) ∧
    (∀ p ∈ RS.RECOMMENDED_GITIGNORE_PATTERNS,
      p ∈ RS.missingSecurityPatterns content ↔
        RS.gitignore_contains content p = false) ∧
    (RS.missingSecurityPatterns content = [] →
      RS.auditGitignoreSecurity content =
        RS.passR "Gitignore" "Covers common sensitive file patterns") ∧
    (RS.missingSecurityPatterns content ≠ [] →
      RS.auditGitignoreSecurity content =
        RS.warnR "Gitignore" ("Missing security patterns: " ++
          String.intercalate ", " (RS.missingSecurityPatterns content))) := by
  refine ⟨?_, ?_, ?_, ?_⟩
  · intro p
    rw [RS.gitignore_contains, List.any_eq_true]
    apply exists_congr
    intro line
    apply and_congr_right
    intro _
    by_cases hc : ((RS.trimChars line).isEmpty ||
        ((RS.trimChars line).head? == some '#')) = true
    · rw [if_pos hc]
      simp only [Bool.or_eq_true, beq_iff_eq] at hc
      constructor
      · intro h; cases h
      · rintro ⟨h1, h2, _⟩
        rcases hc with hc | hc
        · rw [h1] at hc; cases hc
        · exact absurd hc h2
    · rw [if_neg hc]
      simp only [Bool.or_eq_true, beq_iff_eq, not_or, Bool.not_eq_true] at hc
      simp only [Bool.or_eq_true, beq_iff_eq]
      constructor
      · intro h
        exact ⟨hc.1, hc.2, h⟩
      · rintro ⟨_, _, h⟩
        exact h
  · intro p hp
    unfold RS.missingSecurityPatterns
    rw [List.mem_filter]
    simp [hp]
  · intro h
    unfold RS.auditGitignoreSecurity
    rw [h]
    rfl
  · intro h
    have hni : (RS.missingSecurityPatterns content).isEmpty = false := by
      cases hd : RS.missingSecurityPatterns content
      · exact absurd hd h
      · rfl
    unfold RS.auditGitignoreSecurity
    rw [hni]
    rfl

/-- Witness for the amended C8: the counterexample content misses patterns
and the audit warns naming them. -/
theorem RS.C8_gitignore_audit_witness :
    RS.auditGitignoreSecurity "secret.env" =
      RS.warnR "Gitignore" ("Missing security patterns: " ++
        String.intercalate ", " (RS.missingSecurityPatterns "secret.env")) :=
  (RS.C8_gitignore_audit "secret.env").2.2.2 (by decide)

/-- C6: size thresholds are inclusive: a tracked file of exactly 1,000,000
bytes is listed with a Warn; any readable file below 1,000,000 bytes appears
in neither per-file list, so it gets no per-file result; a file at or above
10,000,000 bytes is listed with a Fail instead; and an aggregate total of
exactly 200,000,000 bytes makes the aggregate result (the first result
emitted) a Fail. -/
theorem RS.C6_size_thresholds (files : List RS.SizeEntry) (p : String) (n : Nat) :
    (RS.SizeEntry.mk p (some 1000000) ∈ files →
      RS.perFileSizeResult p 1000000 ∈ RS.sizeValidateResults files ∧
      (RS.perFileSizeResult p 1000000).status = RS.Status.Warn) ∧
    (n < 1000000 →
      (∀ q, (q, n) ∉ RS.largeFiles files) ∧ (∀ q, (q, n) ∉ RS.binaryFiles files)) ∧
    (RS.SizeEntry.mk p (some n) ∈ files → n ≥ 10000000 →
      RS.perFileSizeResult p n ∈ RS.sizeValidateResults files ∧
      (RS.perFileSizeResult p n).status = RS.Status.Fail) ∧
    (RS.sizeTotal files = 200000000 →
      (RS.aggregateSizeResult files).status = RS.Status.Fail ∧
      (RS.sizeValidateResults files).head? = some (RS.aggregateSizeResult files)) := by
  have hmem_large : ∀ (q : String) (k : Nat), RS.SizeEntry.mk q (some k) ∈ files →
      k ≥ RS.LARGE_FILE_THRESHOLD → (q, k) ∈ RS.largeFiles files := by
    intro q k hq hk
    unfold RS.largeFiles
    rw [List.mem_filterMap]
    refine ⟨⟨q, some k⟩, hq, ?_⟩
    show (if k ≥ RS.LARGE_FILE_THRESHOLD then some (q, k) else none) = some (q, k)
    rw [if_pos hk]
  have hres : ∀ (q : String) (k : Nat), (q, k) ∈ RS.largeFiles files →
      RS.perFileSizeResult q k ∈ RS.sizeValidateResults files := by
    intro q k hqk
    unfold RS.sizeValidateResults
    apply List.mem_cons_of_mem
    apply List.mem_append_left
    have hne : (RS.largeFiles files).isEmpty = false := by
      cases hd : RS.largeFiles files
      · rw [hd] at hqk; cases hqk
      · rfl
    unfold RS.perFileSizeResults
    rw [hne]
    exact List.mem_map_of_mem _ hqk
  refine ⟨?_, ?_, ?_, ?_⟩
  · intro hmem
    refine ⟨hres p 1000000 (hmem_large p 1000000 hmem (le_refl _)), ?_⟩
    unfold RS.perFileSizeResult
    rw [if_neg (by decide)]
    rfl
  · intro hn
    constructor
    · intro q hq
      unfold RS.largeFiles at hq
      rw [List.mem_filterMap] at hq
      obtain ⟨e, he, hfe⟩ := hq
      cases hsz : e.size with
      | none => rw [hsz] at hfe; cases hfe
      | some k =>
        rw [hsz] at hfe
        have hfe2 : (if k ≥ RS.LARGE_FILE_THRESHOLD then some (e.path, k) else none) =
            some (q, n) := hfe
        by_cases hk : k ≥ RS.LARGE_FILE_THRESHOLD
        · rw [if_pos hk] at hfe2
          injection hfe2 with h2
          rw [Prod.mk.injEq] at h2
          obtain ⟨h3, h4⟩ := h2
          subst h4
          have h5 : RS.LARGE_FILE_THRESHOLD = 1000000 := rfl
          omega
        · rw [if_neg hk] at hfe2
          cases hfe2
    · intro q hq
      unfold RS.binaryFiles at hq
      rw [List.mem_filterMap] at hq
      obtain ⟨e, he, hfe⟩ := hq
      cases hsz : e.size with
      | none => rw [hsz] at hfe; cases hfe
      | some k =>
        rw [hsz] at hfe
        have hfe2 : (if ((RS.BINARY_EXTENSIONS.any fun ext =>
              ext.data.isSuffixOf (RS.lowerChars e.path.data)) = true ∧
              k ≥ RS.LARGE_FILE_THRESHOLD) then some (e.path, k) else none) =
            some (q, n) := hfe
        by_cases hk : ((RS.BINARY_EXTENSIONS.any fun ext =>
            ext.data.isSuffixOf (RS.lowerChars e.path.data)) = true ∧
            k ≥ RS.LARGE_FILE_THRESHOLD)
        · rw [if_pos hk] at hfe2
          injection hfe2 with h2
          rw [Prod.mk.injEq] at h2
          obtain ⟨h3, h4⟩ := h2
          subst h4
          have h5 : RS.LARGE_FILE_THRESHOLD = 1000000 := rfl
          have h6 := hk.2
          omega
        · rw [if_neg hk] at hfe2
          cases hfe2
  · intro hmem hn
    have h5 : RS.LARGE_FILE_THRESHOLD = 1000000 := rfl
    refine ⟨hres p n (hmem_large p n hmem (by omega)), ?_⟩
    unfold RS.perFileSizeResult
    rw [if_pos (show n ≥ RS.VERY_LARGE_FILE_THRESHOLD from hn)]
    rfl
  · intro ht
    constructor
    · unfold RS.aggregateSizeResult
      rw [ht]
      rw [if_pos (by decide)]
      rfl
    · rfl

/-- Witness for C6: one tracked file of exactly the warn threshold size. -/
theorem RS.C6_size_thresholds_witness :
    RS.perFileSizeResult "big.bin" 1000000 ∈
      RS.sizeValidateResults [RS.SizeEntry.mk "big.bin" (some 1000000)] ∧
    (RS.perFileSizeResult "big.bin" 1000000).status = RS.Status.Warn :=
  (RS.C6_size_thresholds [RS.SizeEntry.mk "big.bin" (some 1000000)]
    "big.bin" 0).1 (by decide)
